import Mathlib

/-!
Verification of the taboo lottery service core against its specification.

Each component that the claims touch is shallowly embedded from the Go
source: pure functions become Lean functions, stateful code becomes
explicit state passing, `uint8` arithmetic is `Nat` with explicit `% 256`,
and fallible code returns `Option` or `Except`. Theorems at the end of the
file settle the individual claims.
-/

/-! ## JSON value model

A small JSON AST, sufficient to state what the SDK's `Picks` type
(src/sdk/dto.go) encodes to and decodes from. -/

/-- A JSON value: null, an integer number, a string, or an array. -/
inductive Json where
  | null : Json
  | num : Int → Json
  | str : String → Json
  | arr : List Json → Json

/-- A `uint8` value, as stored in a `Picks` slice. -/
abbrev U8 := Fin 256

/-! ## sdk.Picks (src/sdk/dto.go)

`Picks []uint8` overrides the default Go JSON encoding of byte slices
(a base64 string) with an array of integers. -/

/-- Embeds `Picks.MarshalJSON`: widens each `uint8` element to `int` and
marshals the resulting slice, so the output is a JSON array of numbers.
A nil slice yields `make([]int, 0)`, which Go marshals as `[]`. -/
def picksMarshalJSON (p : List U8) : Json :=
  Json.arr (p.map (fun v => Json.num ((v.val : Nat) : Int)))

/-- The standard base64 alphabet, for describing Go's default `[]byte`
encoding that `Picks.MarshalJSON` exists to override. -/
def base64Table : List Char :=
  "ABCDEFGHIJKLMNOPQRSTUVWXYZabcdefghijklmnopqrstuvwxyz0123456789+/".toList

/-- Character of the base64 alphabet at a 6-bit index. -/
def b64Char (n : Nat) : Char := base64Table.getD n 'A'

/-- Standard base64 of a byte sequence, three bytes at a time with `=`
padding. -/
def base64Chunks : List Nat → List Char
  | [] => []
  | [a] => [b64Char (a / 4), b64Char (a % 4 * 16), '=', '=']
  | [a, b] => [b64Char (a / 4), b64Char (a % 4 * 16 + b / 16), b64Char (b % 16 * 4), '=']
  | a :: b :: c :: rest =>
      b64Char (a / 4) :: b64Char (a % 4 * 16 + b / 16) ::
      b64Char (b % 16 * 4 + c / 64) :: b64Char (c % 64) :: base64Chunks rest

/-- Go's default JSON encoding of a `[]uint8` value that does not override
`MarshalJSON`: a base64 string. -/
def goDefaultBytesJSON (p : List U8) : Json :=
  Json.str (String.mk (base64Chunks (p.map Fin.val)))

/-- Embeds the `json.Unmarshal(data, &ints)` step of `Picks.UnmarshalJSON`
on one array: every element must be an integer number. -/
def decodeInts : List Json → Except String (List Int)
  | [] => Except.ok []
  | Json.num n :: rest => do
      let xs ← decodeInts rest
      Except.ok (n :: xs)
  | _ :: _ => Except.error "json: cannot unmarshal non-number into int"

/-- Embeds the range-check loop of `Picks.UnmarshalJSON`: each decoded int
must lie in `[0, 255]`, otherwise the whole decode fails. -/
def picksFromInts : List Int → Except String (List U8)
  | [] => Except.ok []
  | v :: rest =>
      if h : 0 ≤ v ∧ v ≤ 255 then do
        let xs ← picksFromInts rest
        Except.ok (⟨v.toNat, by omega⟩ :: xs)
      else Except.error "pick value out of uint8 range"

/-- Embeds `Picks.UnmarshalJSON`: the payload must be a JSON array of
integer numbers, each within `[0, 255]`. -/
def picksUnmarshalJSON (j : Json) : Except String (List U8) :=
  match j with
  | Json.arr xs => do
      let ints ← decodeInts xs
      picksFromInts ints
  | _ => Except.error "json: cannot unmarshal non-array into []int"

/-! Helper lemmas about the Picks codec. -/

lemma decodeInts_picks (p : List U8) :
    decodeInts (p.map (fun v => Json.num ((v.val : Nat) : Int))) =
      Except.ok (p.map (fun v => ((v.val : Nat) : Int))) := by
  induction p with
  | nil => rfl
  | cons v rest ih => simp [decodeInts, ih, bind, Except.bind]

lemma picksFromInts_map_val (p : List U8) :
    picksFromInts (p.map (fun v => ((v.val : Nat) : Int))) = Except.ok p := by
  induction p with
  | nil => rfl
  | cons v rest ih =>
      have hv : (0 : Int) ≤ ((v.val : Nat) : Int) ∧ (((v.val : Nat) : Int)) ≤ 255 := by
        have := v.isLt
        omega
      simp only [List.map_cons, picksFromInts, dif_pos hv, ih, bind, Except.bind]
      congr 2

lemma decodeInts_map_num (ns : List Int) :
    decodeInts (ns.map Json.num) = Except.ok ns := by
  induction ns with
  | nil => rfl
  | cons n rest ih => simp [decodeInts, ih, bind, Except.bind]

lemma picksFromInts_error (ns : List Int) (h : ∃ v ∈ ns, v < 0 ∨ 255 < v) :
    ∃ e, picksFromInts ns = Except.error e := by
  induction ns with
  | nil => simp at h
  | cons v rest ih =>
      by_cases hv : 0 ≤ v ∧ v ≤ 255
      · obtain ⟨w, hw, hwbad⟩ := h
        rcases List.mem_cons.mp hw with hwv | hwrest
        · subst hwv
          rcases hwbad with hb | hb <;> omega
        · obtain ⟨e, he⟩ := ih ⟨w, hwrest, hwbad⟩
          refine ⟨e, ?_⟩
          simp [picksFromInts, dif_pos hv, he, bind, Except.bind]
      · exact ⟨"pick value out of uint8 range", by simp [picksFromInts, dif_neg hv]⟩

/-- C9: every game serialised on the HTTP surface encodes `picks` as a JSON
array of integers whose elements are exactly the pick values, and never as
a (base64) string — the default Go byte-slice encoding is overridden. -/
theorem picks_marshal_is_int_array_never_base64 (p : List U8) :
    picksMarshalJSON p = Json.arr ((p.map (fun v => ((v.val : Nat) : Int))).map Json.num) ∧
    (∀ s : String, picksMarshalJSON p ≠ Json.str s) ∧
    picksMarshalJSON p ≠ goDefaultBytesJSON p := by
  refine ⟨?_, ?_, ?_⟩
  · simp [picksMarshalJSON]
  · intro s h
    simp [picksMarshalJSON] at h
  · intro h
    simp [picksMarshalJSON, goDefaultBytesJSON] at h

/-- C10: the Picks codec round-trips (unmarshal after marshal yields the
original picks), a nil or empty Picks marshals to the JSON array `[]` and
never to `null`, and unmarshalling any integer array containing an
element outside `[0, 255]` returns an error. -/
theorem picks_json_roundtrip_total :
    (∀ p : List U8, picksUnmarshalJSON (picksMarshalJSON p) = Except.ok p) ∧
    picksMarshalJSON [] = Json.arr [] ∧
    picksMarshalJSON [] ≠ Json.null ∧
    (∀ ns : List Int, (∃ v ∈ ns, v < 0 ∨ 255 < v) →
      ∃ e, picksUnmarshalJSON (Json.arr (ns.map Json.num)) = Except.error e) := by
  refine ⟨?_, rfl, by simp [picksMarshalJSON], ?_⟩
  · intro p
    show (do
        let ints ← decodeInts (p.map fun v => Json.num ((v.val : Nat) : Int))
        picksFromInts ints) = Except.ok p
    rw [decodeInts_picks]
    exact picksFromInts_map_val p
  · intro ns h
    obtain ⟨e, he⟩ := picksFromInts_error ns h
    refine ⟨e, ?_⟩
    show (do
        let ints ← decodeInts (ns.map Json.num)
        picksFromInts ints) = Except.error e
    rw [decodeInts_map_num]
    exact he

/-- C10 witness: the codec theorem's error clause applied at the concrete
array [256], whose single element exceeds 255. -/
theorem picks_json_roundtrip_total_witness :
    ∃ e, picksUnmarshalJSON (Json.arr ([(256 : Int)].map Json.num)) =
      Except.error e :=
  picks_json_roundtrip_total.2.2.2 [256] ⟨256, by decide, Or.inr (by decide)⟩

/-! ## pubsub.Broker (src/pkg/pubsub/broker.go)

A broker holds a set of subscriber channels, each a bounded FIFO buffer.
`Publish` performs a non-blocking send on every channel: the select with a
`default` branch enqueues when the buffer has free space and otherwise
drops the event for that subscriber. The subscriber set is modelled as a
list; a channel is a queue plus its capacity. -/

/-- One subscriber channel: its buffered events and its capacity. -/
structure Subscriber (T : Type) where
  buf : List T
  cap : Nat
deriving DecidableEq, Repr

/-- The subscriber set of a `Broker[T]`. -/
abbrev BrokerState (T : Type) := List (Subscriber T)

/-- The default `bufferSize` set in `pubsub.New`. -/
def defaultBufferSize : Nat := 16

/-- Embeds `Broker.Subscribe`: registers a fresh channel with an empty
buffer of the broker's configured capacity. -/
def subscribe (bufferSize : Nat) (s : BrokerState T) : BrokerState T :=
  s ++ [⟨[], bufferSize⟩]

/-- The non-blocking send `select { case ch <- event: ... default: }` of
`Broker.Publish` on one channel: enqueue when below capacity, else drop. -/
def trySend (sub : Subscriber T) (ev : T) : Subscriber T :=
  if sub.buf.length < sub.cap then { sub with buf := sub.buf ++ [ev] } else sub

/-- Embeds `Broker.Publish`: the non-blocking send applied to every
current subscriber. -/
def publish (ev : T) (s : BrokerState T) : BrokerState T :=
  s.map (fun sub => trySend sub ev)

/-- A receive from a subscriber channel: pops the oldest buffered event. -/
def receive (sub : Subscriber T) : Option T × Subscriber T :=
  match sub.buf with
  | [] => (none, sub)
  | x :: rest => (some x, { sub with buf := rest })

/-- C7: publish treats each subscriber independently — subscriber `i` of
the post-publish state depends only on subscriber `i` of the pre-publish
state, enqueueing when its buffer has free space and dropping otherwise,
with the default capacity being 16; concretely, with capacity 2 a
subscriber that never receives gets events 1 and 2 while event 3 is
dropped. -/
theorem publish_nonblocking_drop_isolated :
    (∀ (s : BrokerState Nat) (ev : Nat) (i : Nat),
        (publish ev s)[i]? = (s[i]?).map (fun sub => trySend sub ev)) ∧
    (∀ (sub : Subscriber Nat) (ev : Nat),
        (sub.buf.length < sub.cap → trySend sub ev = { sub with buf := sub.buf ++ [ev] }) ∧
        (¬ sub.buf.length < sub.cap → trySend sub ev = sub)) ∧
    defaultBufferSize = 16 ∧
    (let s3 := publish 3 (publish 2 (publish 1 (subscribe 2 ([] : BrokerState Nat))))
     s3 = [⟨[1, 2], 2⟩] ∧
     (∀ sub1 sub2,
        receive ⟨[1, 2], 2⟩ = (some 1, sub1) →
        receive sub1 = (some 2, sub2) →
        receive sub2 = (none, sub2))) := by
  refine ⟨?_, ?_, rfl, by decide, ?_⟩
  · intro s ev i
    simp [publish]
  · intro sub ev
    constructor
    · intro h
      simp [trySend, h]
    · intro h
      simp [trySend, h]
  · intro sub1 sub2 h1 h2
    simp only [receive] at h1 h2
    cases h1
    cases h2
    rfl

/-! ## httpx middleware chain (src/pkg/httpx/middleware.go, NewServer)

`Chain(m0, …, mk)(mux)` iterates `for i := len-1; i >= 0; i-- { next =
middlewares[i](next) }`, so the first middleware in the argument list ends
up outermost. Middleware application is modelled symbolically as wrapping
a handler tree, which records exactly the nesting order. -/

/-- The middleware constructors used when the server is assembled. -/
inductive Mw where
  | cors : Mw
  | rateLimitMw : Mw
  | gzip : Mw
  | timeout : Mw
  | logging : Mw
  | recoverer : Mw
deriving DecidableEq, Repr

/-- A handler: the route mux, or a middleware wrapped around a handler. -/
inductive Handler where
  | routes : Handler
  | wrap : Mw → Handler → Handler
deriving DecidableEq, Repr

/-- Embeds `httpx.Chain`: folds the middleware list around `next`, first
argument outermost. -/
def chain (ms : List Mw) (next : Handler) : Handler :=
  ms.foldr (fun m acc => Handler.wrap m acc) next

/-- The middleware list passed to `httpx.Chain` in `NewServer`
(src/unnamed/part_037): CORS, RateLimit, Gzip(skip SSE), Timeout(skip
SSE), request logging, Recoverer — in that argument order. -/
def serverMiddlewares : List Mw :=
  [Mw.cors, Mw.rateLimitMw, Mw.gzip, Mw.timeout, Mw.logging, Mw.recoverer]

/-- The fully composed server handler built in `NewServer`. -/
def serverHandler : Handler :=
  chain serverMiddlewares Handler.routes

/-- Reads off the wrapping order of a handler, outermost first. -/
def outermostFirst : Handler → List Mw
  | Handler.routes => []
  | Handler.wrap m h => m :: outermostFirst h

/-- C3 counterexample: the composed server handler is NOT wrapped with the
Recoverer outermost; its outermost-first order differs from the claimed
`Recoverer, CORS, RateLimit, Gzip, Timeout, Logging`. -/
theorem server_chain_recoverer_not_outermost :
    outermostFirst serverHandler ≠
      [Mw.recoverer, Mw.cors, Mw.rateLimitMw, Mw.gzip, Mw.timeout, Mw.logging] ∧
    serverHandler ≠
      chain [Mw.recoverer, Mw.cors, Mw.rateLimitMw, Mw.gzip, Mw.timeout, Mw.logging]
        Handler.routes := by
  decide

/-- C3 amended: the composed middleware chain wraps every request in this
order, outermost first: CORS, then RateLimit, then Gzip (skipping SSE),
then Timeout (skipping SSE), then request logging, then Recoverer, then
the routes — so the recoverer is the innermost middleware, enclosing only
the routes. -/
theorem server_chain_order :
    outermostFirst serverHandler =
      [Mw.cors, Mw.rateLimitMw, Mw.gzip, Mw.timeout, Mw.logging, Mw.recoverer] ∧
    serverHandler =
      Handler.wrap Mw.cors (Handler.wrap Mw.rateLimitMw (Handler.wrap Mw.gzip
        (Handler.wrap Mw.timeout (Handler.wrap Mw.logging
          (Handler.wrap Mw.recoverer Handler.routes))))) := by
  decide

/-! ## httpx.RateLimit (src/pkg/httpx/response.go)

Per-client-IP token buckets. `getLimiter` looks the IP up in the map and
creates a `rate.NewLimiter(rate, burst)` on a miss; the middleware then
asks `limiter.Allow()` and rejects with 429 when no token is available.
Token arithmetic of `golang.org/x/time/rate` is modelled at whole-second
instants with integer rate, where it is exact: tokens refill at `rate`
per second up to `burst`, `Allow` consumes one token when at least one is
available and otherwise changes nothing, and a freshly created limiter
starts with a full bucket. -/

/-- One token bucket: available tokens and the instant of the last update. -/
structure Bucket where
  tokens : Int
  last : Int
deriving DecidableEq, Repr

/-- The per-IP limiter map plus the configured rate and burst. -/
structure RateLimiterState where
  limiters : List (String × Bucket)
  rlRate : Int
  burst : Int
deriving DecidableEq, Repr

/-- Refill: tokens accumulated since the last update, capped at burst. -/
def advanceTokens (rlRate burst : Int) (b : Bucket) (now : Int) : Int :=
  min burst (b.tokens + rlRate * (now - b.last))

/-- `limiter.Allow()`: take one token when available, else deny and leave
the bucket as it was. -/
def bucketAllow (rlRate burst : Int) (b : Bucket) (now : Int) : Bool × Bucket :=
  let t := advanceTokens rlRate burst b now
  if 1 ≤ t then (true, ⟨t - 1, now⟩) else (false, b)

/-- The map lookup in `getLimiter`. -/
def lookupLimiter (m : List (String × Bucket)) (ip : String) : Option Bucket :=
  match m.find? (fun e => e.1 == ip) with
  | some e => some e.2
  | none => none

/-- The map write in `getLimiter`: update the entry for `ip` when present,
else insert a fresh one. -/
def updateLimiters (m : List (String × Bucket)) (ip : String) (b : Bucket) :
    List (String × Bucket) :=
  match m with
  | [] => [(ip, b)]
  | (k, v) :: rest =>
      if k = ip then (ip, b) :: rest else (k, v) :: updateLimiters rest ip b

/-- Embeds `getLimiter`: the existing bucket for `ip`, or a fresh
`rate.NewLimiter(rate, burst)`, which behaves as a full bucket. -/
def getLimiter (rl : RateLimiterState) (ip : String) (now : Int) : Bucket :=
  match lookupLimiter rl.limiters ip with
  | some b => b
  | none => ⟨rl.burst, now⟩

/-- Embeds the `RateLimit` middleware on one request from `ip` at `now`:
true means the request passes to the handler, false means HTTP 429. -/
def rateLimitStep (rl : RateLimiterState) (ip : String) (now : Int) :
    Bool × RateLimiterState :=
  let b := getLimiter rl ip now
  let r := bucketAllow rl.rlRate rl.burst b now
  (r.1, { rl with limiters := updateLimiters rl.limiters ip r.2 })

lemma lookupLimiter_updateLimiters_ne (m : List (String × Bucket))
    (ip ip' : String) (b : Bucket) (h : ip' ≠ ip) :
    lookupLimiter (updateLimiters m ip b) ip' = lookupLimiter m ip' := by
  have hips : (ip == ip') = false := by
    simp [Ne.symm h]
  induction m with
  | nil => simp [updateLimiters, lookupLimiter, List.find?, hips]
  | cons e rest ih =>
      obtain ⟨k, v⟩ := e
      by_cases hk : k = ip
      · simp only [updateLimiters, if_pos hk, lookupLimiter, List.find?, hk, hips]
      · simp only [updateLimiters, if_neg hk, lookupLimiter, List.find?]
        cases hkv : (k == ip') with
        | true => simp
        | false => simpa [lookupLimiter, hkv] using ih

/-- The four-request scenario of C8, run in sequence at one instant. -/
def c8Scenario : List (Bool × RateLimiterState) :=
  let rl0 : RateLimiterState := { limiters := [], rlRate := 1, burst := 2 }
  let s1 := rateLimitStep rl0 "192.168.1.10" 0
  let s2 := rateLimitStep s1.2 "192.168.1.10" 0
  let s3 := rateLimitStep s2.2 "192.168.1.10" 0
  let s4 := rateLimitStep s3.2 "192.168.1.11" 0
  [s1, s2, s3, s4]

/-- C8: every request — the requesting IP's first or any later one —
consumes and updates only that IP's bucket, leaving every other IP's map
entry untouched; a request from an IP with a fresh budget always passes;
and concretely with rate=1 and burst=2, requests 1 and 2 from
192.168.1.10 pass, request 3 from that IP is rejected with 429, and a
request from 192.168.1.11 still passes. -/
theorem rate_limit_per_ip_isolated (rl : RateLimiterState) (ip ip' : String)
    (now : Int) (hne : ip' ≠ ip) :
    lookupLimiter (rateLimitStep rl ip now).2.limiters ip' =
      lookupLimiter rl.limiters ip' ∧
    (lookupLimiter rl.limiters ip = none → 1 ≤ rl.burst →
      (rateLimitStep rl ip now).1 = true) ∧
    (c8Scenario.map Prod.fst) = [true, true, false, true] := by
  refine ⟨?_, ?_, by decide⟩
  · exact lookupLimiter_updateLimiters_ne rl.limiters ip ip' _ hne
  · intro hfresh hburst
    have harith : rl.burst + rl.rlRate * (now - now) = rl.burst := by ring
    simp [rateLimitStep, getLimiter, hfresh, bucketAllow, advanceTokens, harith, hburst]

/-- C8 witness: the isolation theorem applied twice — a request from
192.168.1.10 whose bucket already exists in the map (a second-or-later
request from that IP) still leaves the 192.168.1.11 entry unchanged, and
a request from 192.168.1.11 against an empty map passes with its fresh
budget. -/
theorem rate_limit_per_ip_isolated_witness :
    lookupLimiter
        (rateLimitStep
          { limiters := [("192.168.1.10", ⟨1, 0⟩), ("192.168.1.11", ⟨2, 0⟩)],
            rlRate := 1, burst := 2 }
          "192.168.1.10" 0).2.limiters "192.168.1.11" =
      lookupLimiter [("192.168.1.10", ⟨1, 0⟩), ("192.168.1.11", ⟨2, 0⟩)]
        "192.168.1.11" ∧
    (rateLimitStep { limiters := [], rlRate := 1, burst := 2 }
        "192.168.1.11" 0).1 = true := by
  have h1 := rate_limit_per_ip_isolated
    { limiters := [("192.168.1.10", ⟨1, 0⟩), ("192.168.1.11", ⟨2, 0⟩)],
      rlRate := 1, burst := 2 }
    "192.168.1.10" "192.168.1.11" 0 (by decide)
  have h2 := rate_limit_per_ip_isolated
    { limiters := [], rlRate := 1, burst := 2 }
    "192.168.1.11" "192.168.1.10" 0 (by decide)
  exact ⟨h1.1, h2.2.1 (by decide) (by decide)⟩

/-! ## Domain, store and game service
(src/internal/domain/game.go, src/internal/store/drivers/sqlite,
src/internal/service/game.go)

A round is `domain.Game`. The sqlite store keeps the rounds table; every
read scans the row and builds a fresh `domain.Game` value, so reads are
modelled as pure functions of the table contents. The game service wraps
the store with the active-round redaction rule keyed by its
`activeGameID` atomic. Wall-clock instants are integers. -/

/-- `domain.Game`: one round. -/
structure Game where
  id : Int
  picks : List Nat
  createdAt : Int
deriving DecidableEq, Repr

/-- SQL `GetGameByGameID` (`WHERE game_id = ?`). -/
def storeGetGame (games : List Game) (id : Int) : Option Game :=
  games.find? (fun g => g.id == id)

/-- `ORDER BY game_id` ascending. -/
def gameIdLe (a b : Game) : Prop := a.id ≤ b.id

instance : DecidableRel gameIdLe := fun a b => inferInstanceAs (Decidable (a.id ≤ b.id))

instance : IsTotal Game gameIdLe := ⟨fun a b => Int.le_total a.id b.id⟩

instance : IsTrans Game gameIdLe := ⟨fun _ _ _ => Int.le_trans⟩

/-- `ORDER BY game_id DESC`. -/
def gameIdGe (a b : Game) : Prop := b.id ≤ a.id

instance : DecidableRel gameIdGe := fun a b => inferInstanceAs (Decidable (b.id ≤ a.id))

/-- SQL `GetLatestGame` (`ORDER BY game_id DESC LIMIT 1`). -/
def storeGetLatest (games : List Game) : Option Game :=
  (games.insertionSort gameIdGe).head?

/-- SQL `GetGamesByRange` (`WHERE game_id >= start ORDER BY game_id LIMIT
limit`). -/
def storeListGames (games : List Game) (start : Int) (limit : Nat) : List Game :=
  ((games.filter (fun g => decide (start ≤ g.id))).insertionSort gameIdLe).take limit

/-- `GameService` state: the store contents plus the `activeGameID`
atomic, which is zero until first written. -/
structure GameServiceState where
  games : List Game
  activeGameID : Int
deriving DecidableEq, Repr

/-- `GameService.SetActiveGameID`. -/
def setActiveGameID (s : GameServiceState) (id : Int) : GameServiceState :=
  { s with activeGameID := id }

/-- `GameService.CreateGame`, delegating to the store's INSERT. -/
def createGame (s : GameServiceState) (g : Game) : GameServiceState :=
  { s with games := s.games ++ [g] }

/-- The redaction applied by the service: `if game.ID == activeGameID {
game.Picks = nil }` on a freshly loaded round. -/
def redactActive (activeID : Int) (g : Game) : Game :=
  if g.id = activeID then { g with picks := [] } else g

/-- `GameService.GetGame`: loads a fresh copy from the store and clears
its picks when the loaded round's id equals the active id. The service
state is returned alongside to record that the call leaves it (and the
stored rounds) unchanged. -/
def getGame (s : GameServiceState) (id : Int) : Option Game × GameServiceState :=
  match storeGetGame s.games id with
  | none => (none, s)
  | some g => (some (redactActive s.activeGameID g), s)

/-- `GameService.ListGames`: cursor page from the store with the same
redaction applied to any entry whose id is active. -/
def listGames (s : GameServiceState) (cursor : Int) (limit : Nat) : List Game :=
  (storeListGames s.games cursor limit).map (redactActive s.activeGameID)

/-! ## Engine (src/internal/service, second half of
src/internal/config/config.go)

`Engine.runGame` runs one cycle: generate picks, compute timing, read the
latest id, persist the new round, then broadcast `state(empty)`, the
pick/state pairs, and `complete`. The pick vector, the `next_round_at`
instant and the creation instant are inputs here (the code draws them
from the RNG and the clock); the cancellation-free path is modelled. -/

/-- The engine's events. -/
inductive Event where
  | state (gameId : Int) (picks : List Nat) (nextGame : Int) : Event
  | pick (value : Nat) : Event
  | complete (gameId : Int) : Event
  | heartbeat : Event
deriving DecidableEq, Repr

/-- The id assignment in `runGame`: latest stored id plus one, or 1 when
the store is empty. -/
def nextGameId (games : List Game) : Int :=
  match storeGetLatest games with
  | none => 1
  | some latest => latest.id + 1

/-- The broadcast sequence of one `runGame` cycle: initial empty state,
then for each index i the pick followed by the state carrying the
revealed prefix `picks[:i+1]`, then complete. -/
def runGameEvents (gameId : Int) (picks : List Nat) (nextGame : Int) : List Event :=
  Event.state gameId [] nextGame ::
    ((List.range picks.length).flatMap (fun i =>
      [Event.pick (picks.getD i 0), Event.state gameId (picks.take (i + 1)) nextGame]) ++
     [Event.complete gameId])

/-- Embeds `Engine.runGame` on the cancellation-free path: persist the
round built from the next id, then publish the cycle's events. Note that
the cycle never writes `activeGameID`. -/
def runGame (s : GameServiceState) (picks : List Nat) (nextGame createdAt : Int) :
    GameServiceState × List Event :=
  let game : Game := { id := nextGameId s.games, picks := picks, createdAt := createdAt }
  (createGame s game, runGameEvents game.id picks nextGame)

/-! ## Engine pick generation (Engine.generatePicks, lintGame)

`generatePicks` fills a pool with `uint8(i+1)` for i below `MaxNumber` —
a cast that wraps modulo 256 — Fisher-Yates shuffles it back to front
with `rand.Int(rand.Reader, big.NewInt(i+1))`, and takes the first
`PickCount` values. `lintGame` (src/internal/config/validation.go)
accepts any configuration with `pick_count >= 1` and
`max_number >= pick_count`; it imposes no upper bound on `max_number`,
although the cast's own comment says "MaxNumber is validated <= 80". The
random draws are an input stream `js`, reduced into range exactly as a
uniform draw on `[0, i]` is. -/

/-- The pool `pool[i] = uint8(i+1)`: wraps modulo 256. -/
def initialPool (maxNumber : Nat) : List Nat :=
  (List.range maxNumber).map (fun i => (i + 1) % 256)

/-- `pool[i], pool[j] = pool[j], pool[i]`. -/
def swapAt (l : List Nat) (i j : Nat) : List Nat :=
  (l.set i (l.getD j 0)).set j (l.getD i 0)

/-- The Fisher-Yates loop `for i := len(pool)-1; i > 0; i--`, consuming
one draw `js i % (i+1)` per index. -/
def fisherYates (js : Nat → Nat) : List Nat → Nat → List Nat
  | pool, 0 => pool
  | pool, i + 1 => fisherYates js (swapAt pool (i + 1) (js (i + 1) % (i + 2))) i

/-- Embeds `Engine.generatePicks` for a given draw stream. -/
def generatePicks (js : Nat → Nat) (pickCount maxNumber : Nat) : List Nat :=
  (fisherYates js (initialPool maxNumber) (maxNumber - 1)).take pickCount

/-- The game-section checks of `lintGame` that gate pick generation:
`PickCount >= 1` and `MaxNumber >= PickCount` (no upper bound). -/
def lintGameAccepts (pickCount maxNumber : Nat) : Prop :=
  1 ≤ pickCount ∧ pickCount ≤ maxNumber

instance (pickCount maxNumber : Nat) : Decidable (lintGameAccepts pickCount maxNumber) :=
  inferInstanceAs (Decidable (_ ∧ _))

/-- The draw stream that, for `max_number = 256`, swaps the wrapped value
0 sitting at index 255 to the front and leaves every other index in
place. -/
def c5Draws : Nat → Nat := fun i => if i = 255 then 0 else i

/-- C1: the engine cycle never writes the active id — `runGame` contains
no `SetActiveGameID` call, so `activeGameID` keeps its previous value
through every cycle; concretely, starting from an empty store with the
zero-initialised active id, the cycle persisting round 1 with picks
[3, 7, 9] leaves the active id at 0, and a REST read of round 1 during
its reveal returns the full pick vector instead of the empty one the
claim (and the SDK integration test) requires. -/
theorem engine_cycle_never_marks_active :
    (∀ (s : GameServiceState) (picks : List Nat) (nextGame createdAt : Int),
        ((runGame s picks nextGame createdAt).1).activeGameID = s.activeGameID) ∧
    ((runGame ⟨[], 0⟩ [3, 7, 9] 100 0).1.activeGameID = 0 ∧
     (getGame (runGame ⟨[], 0⟩ [3, 7, 9] 100 0).1 1).1 =
       some ⟨1, [3, 7, 9], 0⟩) := by
  refine ⟨?_, by rfl, by rfl⟩
  intro s picks nextGame createdAt
  rfl

/-- C2: `GameService.GetGame` never mutates the service state (the store's
round value is untouched), returns the round with empty picks when the
requested id is the active id, and returns the stored picks verbatim for
every other id. -/
theorem getGame_redacts_active_only (s : GameServiceState) (id : Int)
    (g : Game) (hfound : storeGetGame s.games id = some g) :
    (getGame s id).2 = s ∧
    (id = s.activeGameID → (getGame s id).1 = some { g with picks := [] }) ∧
    (id ≠ s.activeGameID → (getGame s id).1 = some g) := by
  have hid : g.id = id := by
    have hp := List.find?_some hfound
    exact eq_of_beq hp
  refine ⟨?_, ?_, ?_⟩
  · unfold getGame
    rw [hfound]
  · intro hact
    have hcond : g.id = s.activeGameID := by rw [hid, hact]
    unfold getGame
    rw [hfound]
    simp [redactActive, hcond]
  · intro hact
    have hcond : ¬ g.id = s.activeGameID := by
      rw [hid]
      exact hact
    unfold getGame
    rw [hfound]
    simp [redactActive, hcond]

/-- C2 witness: the redaction theorem applied to a concrete two-round
store with round 2 active — reading round 2 hides the picks, reading
round 1 returns them, and neither read changes the state. -/
theorem getGame_redacts_active_only_witness :
    (getGame ⟨[⟨1, [4, 5], 0⟩, ⟨2, [6, 7], 1⟩], 2⟩ 2).2 =
      ⟨[⟨1, [4, 5], 0⟩, ⟨2, [6, 7], 1⟩], 2⟩ ∧
    (getGame ⟨[⟨1, [4, 5], 0⟩, ⟨2, [6, 7], 1⟩], 2⟩ 2).1 = some ⟨2, [], 1⟩ ∧
    (getGame ⟨[⟨1, [4, 5], 0⟩, ⟨2, [6, 7], 1⟩], 2⟩ 1).1 = some ⟨1, [4, 5], 0⟩ := by
  have h2 := getGame_redacts_active_only
    ⟨[⟨1, [4, 5], 0⟩, ⟨2, [6, 7], 1⟩], 2⟩ 2 ⟨2, [6, 7], 1⟩ (by decide)
  have h1 := getGame_redacts_active_only
    ⟨[⟨1, [4, 5], 0⟩, ⟨2, [6, 7], 1⟩], 2⟩ 1 ⟨1, [4, 5], 0⟩ (by decide)
  exact ⟨h2.1, h2.2.1 rfl, h1.2.2 (by decide)⟩

set_option maxRecDepth 20000 in
/-- C5: a configuration with `pick_count = 1`, `max_number = 256` passes
validation, yet the run of the generator under the draw stream `c5Draws`
produces the pick 0, which lies outside `[1, max_number]` — the
`uint8(i+1)` cast wraps because `lintGame` never bounds `max_number`,
contradicting the cast's own comment that `MaxNumber` is validated to at
most 80. -/
theorem generatePicks_escapes_range_when_validated :
    lintGameAccepts 1 256 ∧
    generatePicks c5Draws 1 256 = [0] ∧
    ¬ (∀ v ∈ generatePicks c5Draws 1 256, 1 ≤ v ∧ v ≤ 256) := by
  refine ⟨by decide, ?_, ?_⟩
  · decide
  · intro hall
    have h0 : (0 : Nat) ∈ generatePicks c5Draws 1 256 := by decide
    have := hall 0 h0
    omega

/-! Helper lemmas for the event-order claim: indexing a list built by
emitting two events per loop iteration. -/

lemma flatMapPair_length (f g : Nat → Event) (n : Nat) :
    ((List.range n).flatMap (fun i => [f i, g i])).length = 2 * n := by
  induction n with
  | zero => rfl
  | succ k ih =>
      rw [List.range_succ, List.flatMap_append]
      simp [ih]
      omega

lemma flatMapPair_getElem (f g : Nat → Event) (n i : Nat) (h : i < n) :
    ((List.range n).flatMap (fun j => [f j, g j]))[2 * i]? = some (f i) ∧
    ((List.range n).flatMap (fun j => [f j, g j]))[2 * i + 1]? = some (g i) := by
  induction n with
  | zero => omega
  | succ k ih =>
      rw [List.range_succ, List.flatMap_append]
      have hlen := flatMapPair_length f g k
      by_cases hik : i < k
      · constructor
        · rw [List.getElem?_append, if_pos (by omega)]
          exact (ih hik).1
        · rw [List.getElem?_append, if_pos (by omega)]
          exact (ih hik).2
      · have hie : i = k := by omega
        subst hie
        constructor
        · rw [List.getElem?_append_right (by omega), hlen]
          simp
        · rw [List.getElem?_append_right (by omega), hlen]
          simp

/-- C4: a cancellation-free engine cycle publishes exactly the sequence
`state(id, [], next)`, then for each i the pair `pick(v_i)` followed by
`state(id, v_1..v_i, next)`, then `complete(id)` — positionally: the
empty state sits at index 0 before every pick, pick i sits at index
2i+1 immediately before the state carrying the prefix ending in v_i at
index 2i+2, and complete sits last at index 2n+1. -/
theorem engine_cycle_event_order :
    (∀ (s : GameServiceState) (picks : List Nat) (nextGame createdAt : Int),
        (runGame s picks nextGame createdAt).2 =
          runGameEvents (nextGameId s.games) picks nextGame) ∧
    (∀ (gameId : Int) (picks : List Nat) (nextGame : Int),
        (runGameEvents gameId picks nextGame).length = 2 * picks.length + 2 ∧
        (runGameEvents gameId picks nextGame)[0]? =
          some (Event.state gameId [] nextGame) ∧
        (∀ i, i < picks.length →
            (runGameEvents gameId picks nextGame)[2 * i + 1]? =
              some (Event.pick (picks.getD i 0)) ∧
            (runGameEvents gameId picks nextGame)[2 * i + 2]? =
              some (Event.state gameId (picks.take (i + 1)) nextGame)) ∧
        (runGameEvents gameId picks nextGame)[2 * picks.length + 1]? =
          some (Event.complete gameId)) := by
  refine ⟨fun s picks nextGame createdAt => rfl, ?_⟩
  intro gameId picks nextGame
  have hlen := flatMapPair_length (fun j => Event.pick (picks.getD j 0))
    (fun j => Event.state gameId (picks.take (j + 1)) nextGame) picks.length
  refine ⟨?_, by simp [runGameEvents], ?_, ?_⟩
  · simp only [runGameEvents, List.length_cons, List.length_append, hlen]
    simp
  · intro i hi
    have hget := flatMapPair_getElem (fun j => Event.pick (picks.getD j 0))
      (fun j => Event.state gameId (picks.take (j + 1) ) nextGame) picks.length i hi
    constructor
    · simp only [runGameEvents, List.getElem?_cons_succ]
      rw [List.getElem?_append, if_pos (by omega)]
      exact hget.1
    · have h22 : 2 * i + 2 = (2 * i + 1) + 1 := by omega
      simp only [runGameEvents, h22, List.getElem?_cons_succ]
      rw [List.getElem?_append, if_pos (by omega)]
      exact hget.2
  · simp only [runGameEvents, List.getElem?_cons_succ]
    rw [List.getElem?_append_right (by omega), hlen]
    simp

/-- C4 witness: the event-order theorem applied to round 1 with pick
vector [3, 7, 9] at i = 1 — pick 7 is published at index 3, immediately
followed at index 4 by the state carrying the prefix [3, 7]. -/
theorem engine_cycle_event_order_witness :
    (runGameEvents 1 [3, 7, 9] 50)[2 * 1 + 1]? = some (Event.pick 7) ∧
    (runGameEvents 1 [3, 7, 9] 50)[2 * 1 + 2]? =
      some (Event.state 1 [3, 7] 50) :=
  (engine_cycle_event_order.2 1 [3, 7, 9] 50).2.2.1 1 (by decide)

/-! ## GET /api/v1/games (src/internal/http/games.go)

`handleListGames` parses `cursor` (default 0, must be a nonnegative
integer) and `limit` (default 20, must be in 1..100), fetches `limit+1`
rounds from the game service to probe for a further page, truncates the
page to `limit`, and attaches `next_cursor = last id + 1` exactly when
the probe returned more than `limit` rounds. -/

/-- `sdk.GameListResponse`: the page and the optional `next_cursor`. -/
structure GameListResponse where
  games : List Game
  nextCursor : Option Int
deriving DecidableEq, Repr

/-- Embeds `Server.handleListGames` after parameter validation: fetch
`limit+1`, detect a further page, truncate, and set `next_cursor` to the
last returned id plus one when more results exist and the page is
nonempty. -/
def handleListGames (s : GameServiceState) (cursor : Int) (limit : Nat) :
    GameListResponse :=
  if limit < (listGames s cursor (limit + 1)).length then
    { games := (listGames s cursor (limit + 1)).take limit
      nextCursor :=
        match ((listGames s cursor (limit + 1)).take limit).getLast? with
        | some g => some (g.id + 1)
        | none => none }
  else
    { games := listGames s cursor (limit + 1), nextCursor := none }

/-! Helper lemmas for pagination. -/

lemma redactActive_id (a : Int) (g : Game) : (redactActive a g).id = g.id := by
  unfold redactActive
  by_cases h : g.id = a <;> simp [h]

lemma listGames_map_id (s : GameServiceState) (cursor : Int) (limit : Nat) :
    (listGames s cursor limit).map Game.id =
      (storeListGames s.games cursor limit).map Game.id := by
  unfold listGames
  rw [List.map_map]
  simp [Function.comp, redactActive_id]

lemma storeListGames_sorted (games : List Game) (start : Int) (limit : Nat) :
    List.Sorted gameIdLe (storeListGames games start limit) := by
  unfold storeListGames
  exact List.Pairwise.sublist (List.take_sublist _ _)
    (List.sorted_insertionSort gameIdLe _)

lemma storeListGames_length (games : List Game) (start : Int) (limit : Nat) :
    (storeListGames games start limit).length =
      min limit (games.filter (fun g => decide (start ≤ g.id))).length := by
  unfold storeListGames
  rw [List.length_take, (List.perm_insertionSort gameIdLe _).length_eq]

lemma storeListGames_mem {games : List Game} {start : Int} {limit : Nat}
    {g : Game} (h : g ∈ storeListGames games start limit) :
    g ∈ games ∧ start ≤ g.id := by
  unfold storeListGames at h
  have h2 : g ∈ (games.filter (fun g => decide (start ≤ g.id))).insertionSort gameIdLe :=
    List.Sublist.mem h (List.take_sublist _ _)
  rw [List.mem_insertionSort, List.mem_filter] at h2
  exact ⟨h2.1, by simpa using h2.2⟩

lemma listGames_length (s : GameServiceState) (cursor : Int) (limit : Nat) :
    (listGames s cursor limit).length =
      min limit (s.games.filter (fun g => decide (cursor ≤ g.id))).length := by
  unfold listGames
  rw [List.length_map, storeListGames_length]

lemma listGames_ids_sorted (s : GameServiceState) (cursor : Int) (limit : Nat) :
    List.Sorted (· ≤ ·) ((listGames s cursor limit).map Game.id) := by
  rw [listGames_map_id]
  exact List.pairwise_map.mpr (storeListGames_sorted s.games cursor limit)

lemma listGames_mem {s : GameServiceState} {cursor : Int} {limit : Nat}
    {g : Game} (h : g ∈ listGames s cursor limit) :
    cursor ≤ g.id ∧ g.id ∈ s.games.map Game.id := by
  unfold listGames at h
  rw [List.mem_map] at h
  obtain ⟨g0, hg0, hred⟩ := h
  obtain ⟨hmem, hle⟩ := storeListGames_mem hg0
  constructor
  · rw [← hred, redactActive_id]
    exact hle
  · rw [← hred, redactActive_id]
    exact List.mem_map.mpr ⟨g0, hmem, rfl⟩

/-- The five stored rounds of the pagination scenario. -/
def c6Store : GameServiceState :=
  ⟨[⟨1, [1], 0⟩, ⟨2, [2], 0⟩, ⟨3, [3], 0⟩, ⟨4, [4], 0⟩, ⟨5, [5], 0⟩], 0⟩

/-- C6: for every validated request (limit in 1..100, cursor ≥ 0) the
response pages the stored rounds with id ≥ cursor in ascending id order,
at most `limit` of them; `next_cursor` is present precisely when a
further matching round exists beyond the page, and then equals the last
returned id plus one; concretely over rounds 1..5 with limit 2 the pages
are [1,2] with next_cursor 3, [3,4] with next_cursor 5, and [5] with no
next_cursor. -/
theorem list_games_cursor_pagination (s : GameServiceState) (cursor : Int)
    (limit : Nat) (hl1 : 1 ≤ limit) (hl2 : limit ≤ 100) (hc : 0 ≤ cursor) :
    ((handleListGames s cursor limit).games.length ≤ limit ∧
     List.Sorted (· ≤ ·) ((handleListGames s cursor limit).games.map Game.id) ∧
     (∀ g ∈ (handleListGames s cursor limit).games,
        cursor ≤ g.id ∧ g.id ∈ s.games.map Game.id) ∧
     ((handleListGames s cursor limit).nextCursor.isSome ↔
        limit < (s.games.filter (fun g => decide (cursor ≤ g.id))).length) ∧
     (∀ x, (handleListGames s cursor limit).nextCursor = some x →
        ∃ glast, (handleListGames s cursor limit).games.getLast? = some glast ∧
          x = glast.id + 1)) ∧
    ((handleListGames c6Store 0 2).games.map Game.id = [1, 2] ∧
     (handleListGames c6Store 0 2).nextCursor = some 3 ∧
     (handleListGames c6Store 3 2).games.map Game.id = [3, 4] ∧
     (handleListGames c6Store 3 2).nextCursor = some 5 ∧
     (handleListGames c6Store 5 2).games.map Game.id = [5] ∧
     (handleListGames c6Store 5 2).nextCursor = none) := by
  refine ⟨?_, by decide⟩
  have hG := listGames_length s cursor (limit + 1)
  by_cases hm : limit < (listGames s cursor (limit + 1)).length
  · have hresp : handleListGames s cursor limit =
        { games := (listGames s cursor (limit + 1)).take limit
          nextCursor :=
            match ((listGames s cursor (limit + 1)).take limit).getLast? with
            | some g => some (g.id + 1)
            | none => none } := by
      unfold handleListGames
      rw [if_pos hm]
    have hlen2 : ((listGames s cursor (limit + 1)).take limit).length = limit := by
      rw [List.length_take]
      omega
    have hne : ((listGames s cursor (limit + 1)).take limit) ≠ [] := by
      intro hnil
      rw [hnil] at hlen2
      simp at hlen2
      omega
    obtain ⟨glast, hlast⟩ :
        ∃ glast, ((listGames s cursor (limit + 1)).take limit).getLast? = some glast :=
      Option.isSome_iff_exists.mp (List.getLast?_isSome.mpr hne)
    rw [hresp]
    refine ⟨?_, ?_, ?_, ?_, ?_⟩
    · exact hlen2.le
    · show List.Sorted (· ≤ ·) (((listGames s cursor (limit + 1)).take limit).map Game.id)
      rw [List.map_take]
      exact List.Pairwise.sublist (List.take_sublist _ _)
        (listGames_ids_sorted s cursor (limit + 1))
    · intro g hg
      exact listGames_mem (List.Sublist.mem hg (List.take_sublist _ _))
    · show (Option.isSome
          (match ((listGames s cursor (limit + 1)).take limit).getLast? with
           | some g => some (g.id + 1)
           | none => none) = true) ↔ _
      rw [hlast]
      simp only [Option.isSome_some, true_iff]
      omega
    · intro x hx
      show ∃ glast2, ((listGames s cursor (limit + 1)).take limit).getLast? = some glast2 ∧
        x = glast2.id + 1
      have hx2 : (match ((listGames s cursor (limit + 1)).take limit).getLast? with
          | some g => some (g.id + 1)
          | none => (none : Option Int)) = some x := hx
      rw [hlast] at hx2
      simp only [Option.some.injEq] at hx2
      exact ⟨glast, hlast, hx2.symm⟩
  · have hresp : handleListGames s cursor limit =
        { games := listGames s cursor (limit + 1), nextCursor := none } := by
      unfold handleListGames
      rw [if_neg hm]
    rw [hresp]
    refine ⟨?_, ?_, ?_, ?_, ?_⟩
    · show (listGames s cursor (limit + 1)).length ≤ limit
      omega
    · exact listGames_ids_sorted s cursor (limit + 1)
    · intro g hg
      exact listGames_mem hg
    · show (Option.isSome (none : Option Int) = true) ↔ _
      simp only [Option.isSome_none, Bool.false_eq_true, false_iff]
      omega
    · intro x hx
      exact absurd hx (by simp)

/-- C6 witness: the pagination theorem applied to the concrete five-round
store at cursor 0 and limit 2 — the page holds at most two rounds and
`next_cursor` is present because further rounds exist. -/
theorem list_games_cursor_pagination_witness :
    (handleListGames c6Store 0 2).games.length ≤ 2 ∧
    ((handleListGames c6Store 0 2).nextCursor.isSome ↔
      2 < (c6Store.games.filter (fun g => decide ((0 : Int) ≤ g.id))).length) := by
  have h := list_games_cursor_pagination c6Store 0 2 (by decide) (by decide) (by decide)
  exact ⟨h.1.1, h.1.2.2.2.1⟩
